import Mathlib

/-!
# Invitation-and-role reconciliation state machine: a shallow embedding

This file embeds the invitation/membership logic of the workspace
administration frontend:

* `reconcile` — the `POST /api/auth/confirm-email` route handler
  (Confirmation Reconciler);
* `issue` — the `POST /api/invitations/create` route handler
  (Invitation Issuer), including its no-session bypass branch;
* `acceptInvitation` — the `AcceptInvitation.onFinish` handler of the
  acceptance page (Registration/Acceptance Handler);
* `loginSweep` — the invitation-processing tail of `LoginPage.onFinish`
  (Session-Login Invitation Sweep);
* `targetLink` — the acceptance deep-link construction.

Database tables (`auth.users`, `user_roles`, `workspace_members`,
`workspace_invitations`) are lists of rows; Supabase's `.single()` is
`selectSingle` (some row exactly when exactly one row matches, as
PostgREST errors on zero or multiple rows).  JavaScript string falsiness
(`!email`) is the empty-string test, and `x || 'member'` defaulting is
spelled with an `if x = "" then "member"` conditional.
-/

/-- Invitation status values stored in `workspace_invitations.status`. -/
inductive InvStatus
  | pending
  | accepted
  | cancelled
  | expired
deriving DecidableEq, BEq, Repr

/-- A row of the `workspace_invitations` table. -/
structure Invitation where
  workspace_id : String
  email : String
  role : String
  status : InvStatus
  invited_by : String
  accepted_at : Option Nat
deriving DecidableEq, BEq, Repr

/-- A row of the `workspace_members` table. -/
structure Member where
  workspace_id : String
  user_id : String
  role : String
deriving DecidableEq, BEq, Repr

/-- A row of `auth.users` as seen through `auth.admin.getUserById`:
the identity's id, email, and whether `email_confirmed_at` is set. -/
structure AuthUser where
  id : String
  email : String
  email_confirmed : Bool
deriving DecidableEq, BEq, Repr

/-- A row of the `user_roles` table (global roles). -/
structure UserRole where
  user_id : String
  role : String
deriving DecidableEq, BEq, Repr

/-- The persistent state the invitation flows touch: the identity store
and the three relational tables. -/
structure DB where
  users : List AuthUser
  user_roles : List UserRole
  members : List Member
  invitations : List Invitation
deriving DecidableEq, BEq, Repr

/-- Supabase `.single()`: the data is the matching row when exactly one
row matches the filter; with zero or several matching rows PostgREST
reports an error and the data is `none`. -/
def selectSingle (p : α → Bool) (rows : List α) : Option α :=
  match rows.filter p with
  | [r] => some r
  | _ => none

/-- Does the `workspace_invitations` row match the reconciler's filter
`.eq('email', email).eq('status', 'pending')`? -/
def pendingFor (email : String) (i : Invitation) : Bool :=
  i.email == email && i.status == InvStatus.pending

/-- Does the `workspace_invitations` row match `(workspace_id, email)`,
the ledger's natural key? -/
def keyFor (wsId email : String) (i : Invitation) : Bool :=
  i.workspace_id == wsId && i.email == email

/-- Does the `workspace_members` row match `(workspace_id, user_id)`? -/
def memberKey (wsId userId : String) (m : Member) : Bool :=
  m.workspace_id == wsId && m.user_id == userId

/-- Outcomes of `POST /api/auth/confirm-email`.  Only
`memberAdded` responds with `success: true`; every other variant is a
`success: false` response (400/404/500). -/
inductive ReconcileResult
  | missingFields
  | userNotFound
  | notYetConfirmed
  | memberInsertFailed
  | noPendingInvitation
  | memberAdded
deriving DecidableEq, BEq, Repr

/-- The `success` field of the reconciler's JSON response. -/
def ReconcileResult.isSuccess : ReconcileResult → Bool
  | .memberAdded => true
  | _ => false

/-- `POST /api/auth/confirm-email` (Confirmation Reconciler), from the
route handler: reject missing fields; load the user by id; reject when
`email_confirmed_at` is unset; `.single()`-select the `pending`
invitation by email alone; insert the membership with the invitation's
workspace and role (`inviteData.role || 'member'`); then update every
`workspace_invitations` row with that workspace and email to
`accepted` with `accepted_at` set.

Modelled from the spec: the `workspace_members` table schema is not in
the repository; per the data model (composite identity
`(workspace_id, user_id)`) an insert of an already-present pair fails
with a duplicate-key error instead of creating a second row, which the
handler surfaces as `Failed to add user to workspace` (500). -/
def reconcile (db : DB) (email userId : String) (now : Nat) :
    ReconcileResult × DB :=
  if email = "" ∨ userId = "" then (.missingFields, db)
  else
    match selectSingle (fun u => u.id == userId) db.users with
    | none => (.userNotFound, db)
    | some u =>
      if !u.email_confirmed then (.notYetConfirmed, db)
      else
        match selectSingle (pendingFor email) db.invitations with
        | none => (.noPendingInvitation, db)
        | some inv =>
          if db.members.any (memberKey inv.workspace_id userId) then
            (.memberInsertFailed, db)
          else
            let newMember : Member :=
              ⟨inv.workspace_id, userId,
                if inv.role = "" then "member" else inv.role⟩
            let db1 := { db with members := db.members ++ [newMember] }
            let db2 := { db1 with
              invitations := db1.invitations.map (fun i =>
                if keyFor inv.workspace_id email i then
                  { i with status := .accepted, accepted_at := some now }
                else i) }
            (.memberAdded, db2)

/-- Outcomes of `POST /api/invitations/create`.  Only `sent`
responds with `success: true`. -/
inductive IssueResult
  | missingFields
  | forbidden
  | mailFailed
  | sent
deriving DecidableEq, BEq, Repr

/-- The `success` field of the issuer's JSON response. -/
def IssueResult.isSuccess : IssueResult → Bool
  | .sent => true
  | _ => false

/-- The ledger upsert of the create route: `.single()`-select the
existing `(workspace_id, email)` row; if present, update its `role`
(defaulted to `member`), `status` (back to `pending`) and `invited_by`;
otherwise insert a fresh `pending` row.

Modelled from the spec: the `workspace_invitations` schema (created by
the `create_workspace_invitations_table` RPC) is not in the repository;
per the data model the natural key `(workspace_id, email)` is unique,
so an insert that races an existing row fails with the duplicate-key
error the route swallows (`inviteError.message.includes('duplicate key
value')`) and the table is left as it was. -/
def upsertInvitation (db : DB) (wsId email role inviter : String) : DB :=
  match selectSingle (keyFor wsId email) db.invitations with
  | some _ =>
    { db with invitations := db.invitations.map (fun i =>
        if keyFor wsId email i then
          { i with role := if role = "" then "member" else role,
                   status := .pending, invited_by := inviter }
        else i) }
  | none =>
    if (db.invitations.filter (keyFor wsId email)).isEmpty then
      { db with invitations := db.invitations ++
          [⟨wsId, email, (if role = "" then "member" else role),
            .pending, inviter, none⟩] }
    else db

/-- The hard-coded superadmin user id the create route substitutes when
session lookup fails ("Bypassing authentication check"). -/
def mockSuperadminId : String := "b2587e5a-e91c-4111-a6e2-d5705505e7c3"

/-- `POST /api/invitations/create` (Invitation Issuer), from the route
handler.  `session` is what `supabase.auth.getSession()` yields;
`mailOk` is whether the `send-invitation-email` call comes back `ok`.

With no session the route logs "Bypassing authentication check and
using admin client", adopts `mockSuperadminId` as inviter, and runs the
same upsert-then-mail tail with no authorization check at all.  With a
session, the caller must be a global `superadmin` (via `user_roles`) or
an `admin`/`owner` member of the workspace, else 403 before any ledger
access.  The ledger upsert is never rolled back: a failed mail send
returns the 500 `Failed to send invitation email` response with the
row already written. -/
def issue (db : DB) (session : Option AuthUser)
    (email workspaceId role : String) (mailOk : Bool) : IssueResult × DB :=
  if email = "" ∨ workspaceId = "" then (.missingFields, db)
  else
    match session with
    | none =>
      let db1 := upsertInvitation db workspaceId email role mockSuperadminId
      if mailOk then (.sent, db1) else (.mailFailed, db1)
    | some user =>
      let roleData := selectSingle (fun r => r.user_id == user.id) db.user_roles
      let isSuperadmin :=
        match roleData with
        | some r => r.role == "superadmin"
        | none => false
      let allowed :=
        isSuperadmin ||
          (match selectSingle (memberKey workspaceId user.id) db.members with
           | some m => m.role == "admin" || m.role == "owner"
           | none => false)
      if !allowed then (.forbidden, db)
      else
        let db1 := upsertInvitation db workspaceId email role user.id
        if mailOk then (.sent, db1) else (.mailFailed, db1)

/-- The browser-held carried-intent markers: the `localStorage` keys
the invitation flows read and write (absent key = `none`). -/
structure LocalStorage where
  process_pending_invitation : Option String
  pending_workspace_id : Option String
  pending_invitation_workspace_id : Option String
  pending_invite_role : Option String
  pending_invitation_role : Option String
  pending_confirmation_user_id : Option String
  pending_confirmation_workspace_id : Option String
  pending_confirmation_email : Option String
deriving DecidableEq, BEq, Repr

/-- JavaScript truthiness of a nullable string: `null` and `''` are
falsy. -/
def truthy : Option String → Bool
  | none => false
  | some s => !(s = "")

/-- JavaScript `a || b` on nullable strings. -/
def jsOr (a b : Option String) : Option String :=
  if truthy a then a else b

/-- JavaScript `a || d` on a nullable string with a plain default. -/
def jsOrD (a : Option String) (d : String) : String :=
  match a with
  | some s => if s = "" then d else s
  | none => d

/-- The invitation data the acceptance page extracts from the deep
link's query parameters. -/
structure InvitationQuery where
  email : String
  workspaceId : String
  inviteRole : String
  workspaceName : String
deriving DecidableEq, BEq, Repr

/-- Outcomes of `AcceptInvitation.onFinish`. -/
inductive AcceptResult
  | invalidData
  | passwordMismatch
  | signUpFailed
  | registered
deriving DecidableEq, BEq, Repr

/-- `AcceptInvitation.onFinish` (Registration/Acceptance Handler), from
the acceptance page: guard the extracted invitation data and the
password confirmation; `signUp` the email (an already-registered email
is a sign-up error the handler surfaces without writing anything; a
fresh account starts unconfirmed and Supabase mails its confirmation
link); stash `pending_confirmation_user_id` /
`pending_confirmation_workspace_id` / `pending_confirmation_email` in
localStorage; then update the `(workspace_id, email)` invitation rows
to `accepted` with `accepted_at` set — with no filter on the previous
status and before the email is confirmed. -/
def acceptInvitation (db : DB) (ls : LocalStorage)
    (invQuery : Option InvitationQuery)
    (email password confirmPassword newUserId : String) (now : Nat) :
    AcceptResult × DB × LocalStorage :=
  match invQuery with
  | none => (.invalidData, db, ls)
  | some inv =>
    if password ≠ confirmPassword then (.passwordMismatch, db, ls)
    else if db.users.any (fun u => u.email == email) then
      (.signUpFailed, db, ls)
    else
      let db1 := { db with users := db.users ++ [(⟨newUserId, email, false⟩ : AuthUser)] }
      let ls1 := { ls with
        pending_confirmation_user_id := some newUserId
        pending_confirmation_workspace_id := some inv.workspaceId
        pending_confirmation_email := some email }
      let db2 := { db1 with invitations := db1.invitations.map (fun i =>
        if keyFor inv.workspaceId email i then
          { i with status := .accepted, accepted_at := some now }
        else i) }
      (.registered, db2, ls1)

/-- Outcomes of the invitation-processing tail of `LoginPage.onFinish`
(after a successful sign-in). -/
inductive SweepOutcome
  | noIntent
  | userLookupFailed
  | confirmCalled (r : ReconcileResult)
  | alreadyMember
  | memberAdded
deriving DecidableEq, BEq, Repr

/-- Lines 337–350 of the login page: remove every carried-intent
marker, the five regular-invitation keys and the three
pending-confirmation keys. -/
def clearIntent (_ : LocalStorage) : LocalStorage :=
  { process_pending_invitation := none
    pending_workspace_id := none
    pending_invitation_workspace_id := none
    pending_invite_role := none
    pending_invitation_role := none
    pending_confirmation_user_id := none
    pending_confirmation_workspace_id := none
    pending_confirmation_email := none }

/-- The Session-Login Invitation Sweep: the tail of
`LoginPage.onFinish` once `signIn` succeeded.  `email` is the
submitted login email and `user` is what `supabase.auth.getUser()`
returns.  Reads the carried intent from localStorage (preferring the
pending-confirmation keys when their email matches); with
pending-confirmation data it POSTs `/api/auth/confirm-email`
(`reconcile`), logging but not acting on its failure; otherwise it
checks membership, inserts the member and marks the `(workspace_id,
user.email)` invitation rows accepted; in every processed case it then
clears all carried-intent markers.  When `getUser` yields no user it
returns early, clearing nothing. -/
def loginSweep (db : DB) (ls : LocalStorage) (email : String)
    (user : Option AuthUser) (now : Nat) :
    SweepOutcome × DB × LocalStorage :=
  let shouldProcess0 := ls.process_pending_invitation == some "true"
  let workspaceId0 := jsOr ls.pending_workspace_id ls.pending_invitation_workspace_id
  let inviteRole :=
    jsOrD (jsOr ls.pending_invite_role ls.pending_invitation_role) "member"
  let pcUser := ls.pending_confirmation_user_id
  let pcEmail := ls.pending_confirmation_email
  let pcWs := ls.pending_confirmation_workspace_id
  let usePc := pcEmail == some email && truthy pcWs
  let shouldProcess := shouldProcess0 || usePc
  let wsId := jsOrD (if usePc then pcWs else workspaceId0) ""
  if shouldProcess && !(wsId = "") then
    match user with
    | none => (.userLookupFailed, db, ls)
    | some u =>
      if truthy pcUser && pcEmail == some email then
        let rd := reconcile db email u.id now
        (.confirmCalled rd.1, rd.2, clearIntent ls)
      else
        match selectSingle (memberKey wsId u.id) db.members with
        | some _ => (.alreadyMember, db, clearIntent ls)
        | none =>
          let db1 := { db with members := db.members ++ [(⟨wsId, u.id, inviteRole⟩ : Member)] }
          let db2 := { db1 with invitations := db1.invitations.map (fun i =>
            if keyFor wsId u.email i then
              { i with status := .accepted, accepted_at := some now }
            else i) }
          (.memberAdded, db2, clearIntent ls)
  else (.noIntent, db, ls)

/-- An uppercase hexadecimal digit. -/
def hexDigit (n : Nat) : Char :=
  if n < 10 then Char.ofNat (48 + n) else Char.ofNat (55 + n)

/-- The UTF-8 bytes of a Unicode scalar value. -/
def utf8Bytes (n : Nat) : List Nat :=
  if n < 128 then [n]
  else if n < 2048 then [192 + n / 64, 128 + n % 64]
  else if n < 65536 then [224 + n / 4096, 128 + (n / 64) % 64, 128 + n % 64]
  else [240 + n / 262144, 128 + (n / 4096) % 64, 128 + (n / 64) % 64,
        128 + n % 64]

/-- The characters `encodeURIComponent` leaves unescaped:
alphanumerics and `-_.!~*'()`. -/
def isUnescaped (c : Char) : Bool :=
  c.isAlpha || c.isDigit ||
    ['-', '_', '.', '!', '~', '*', '(', ')'].contains c || c == Char.ofNat 39

/-- One character's contribution to `encodeURIComponent`. -/
def encodeChar (c : Char) : List Char :=
  if isUnescaped c then [c]
  else (utf8Bytes c.toNat).flatMap
    (fun b => ['%', hexDigit (b / 16), hexDigit (b % 16)])

/-- JavaScript's `encodeURIComponent`. -/
def encodeURIComponent (s : String) : String :=
  ⟨s.data.flatMap encodeChar⟩

/-- The acceptance deep link the create route builds:
`${base}/auth/accept-invitation?email=${encodeURIComponent(email)}&workspace_id=${workspaceId}&invite_role=${role || 'member'}&workspace_name=${encodeURIComponent(workspaceName)}`. -/
def targetLink (base email workspaceId role workspaceName : String) : String :=
  base ++ "/auth/accept-invitation?email=" ++ encodeURIComponent email ++
    "&workspace_id=" ++ workspaceId ++
    "&invite_role=" ++ (if role = "" then "member" else role) ++
    "&workspace_name=" ++ encodeURIComponent workspaceName

/-- The deep link's query as an association list of parameter names and
values, in the order the template writes them. -/
def targetLinkQuery (email workspaceId role workspaceName : String) :
    List (String × String) :=
  [("email", encodeURIComponent email),
   ("workspace_id", workspaceId),
   ("invite_role", if role = "" then "member" else role),
   ("workspace_name", encodeURIComponent workspaceName)]

/-- Render an association list back into a `k=v&k=v` query string. -/
def renderQuery (ps : List (String × String)) : String :=
  String.intercalate "&" (ps.map fun p => p.1 ++ "=" ++ p.2)

/-! ## Supabase `.single()` lemmas -/

theorem selectSingle_of_one {α : Type} {p : α → Bool} {rows : List α} {r : α}
    (h : rows.filter p = [r]) : selectSingle p rows = some r := by
  unfold selectSingle
  rw [h]

theorem selectSingle_of_nil {α : Type} {p : α → Bool} {rows : List α}
    (h : rows.filter p = []) : selectSingle p rows = none := by
  unfold selectSingle
  rw [h]

theorem selectSingle_of_many {α : Type} {p : α → Bool} {rows : List α}
    (h : 2 ≤ (rows.filter p).length) : selectSingle p rows = none := by
  unfold selectSingle
  rcases hm : rows.filter p with _ | ⟨a, _ | ⟨b, t⟩⟩
  · rfl
  · rw [hm] at h
    simp at h
  · rfl

/-! ## Concrete states used by witnesses and counterexamples -/

/-- A store holding one unconfirmed invited identity and its pending
invitation. -/
def dbUnconfirmed : DB :=
  { users := [⟨"u1", "new@x.com", false⟩]
    user_roles := []
    members := []
    invitations := [⟨"W1", "new@x.com", "admin", .pending, "sa", none⟩] }

/-- A store holding one confirmed identity, its cancelled invitation,
and no memberships. -/
def dbCancelled : DB :=
  { users := [⟨"u1", "e@x.com", true⟩]
    user_roles := []
    members := []
    invitations := [⟨"W1", "e@x.com", "member", .cancelled, "sa", none⟩] }

/-- The carried-intent markers left by the acceptance page for
`e@x.com`. -/
def lsConfirm : LocalStorage :=
  { process_pending_invitation := none
    pending_workspace_id := none
    pending_invitation_workspace_id := none
    pending_invite_role := none
    pending_invitation_role := none
    pending_confirmation_user_id := some "u1"
    pending_confirmation_workspace_id := some "W1"
    pending_confirmation_email := some "e@x.com" }

/-! ## C6 — confirmation precondition -/

/-- C6: when the identity's email-confirmed flag is false, `reconcile`
returns `NotYetConfirmed` and changes neither memberships nor the
ledger (the whole store is returned untouched). -/
theorem C6_not_confirmed (db : DB) (email userId : String) (now : Nat)
    (u : AuthUser)
    (hemail : email ≠ "") (huid : userId ≠ "")
    (hu : selectSingle (fun v => v.id == userId) db.users = some u)
    (hconf : u.email_confirmed = false) :
    reconcile db email userId now = (.notYetConfirmed, db) := by
  simp [reconcile, hemail, huid, hu, hconf]

theorem C6_witness :
    reconcile dbUnconfirmed "new@x.com" "u1" 0 = (.notYetConfirmed, dbUnconfirmed) :=
  C6_not_confirmed dbUnconfirmed "new@x.com" "u1" 0 ⟨"u1", "new@x.com", false⟩
    (by decide) (by decide) (by rfl) (by rfl)

/-! ## C9 — the email-only single-row lookup -/

/-- C9: `reconcile` selects the pending invitation by email alone with
`.single()`; when the email has two or more pending invitations (in
however many workspaces), the lookup yields no row and the call returns
`NoPendingInvitation` with the store untouched — no membership is
created for any of them. -/
theorem C9_email_only_single_lookup (db : DB) (email userId : String)
    (now : Nat) (u : AuthUser)
    (hemail : email ≠ "") (huid : userId ≠ "")
    (hu : selectSingle (fun v => v.id == userId) db.users = some u)
    (hconf : u.email_confirmed = true)
    (h2 : 2 ≤ (db.invitations.filter (pendingFor email)).length) :
    reconcile db email userId now = (.noPendingInvitation, db) := by
  simp [reconcile, hemail, huid, hu, hconf, selectSingle_of_many h2]

/-- Two pending invitations for one email in two workspaces. -/
def dbTwoPending : DB :=
  { users := [⟨"u1", "e@x.com", true⟩]
    user_roles := []
    members := []
    invitations := [⟨"W1", "e@x.com", "member", .pending, "sa", none⟩,
                    ⟨"W2", "e@x.com", "admin", .pending, "sa", none⟩] }

theorem C9_witness :
    reconcile dbTwoPending "e@x.com" "u1" 3 = (.noPendingInvitation, dbTwoPending) :=
  C9_email_only_single_lookup dbTwoPending "e@x.com" "u1" 3 ⟨"u1", "e@x.com", true⟩
    (by decide) (by decide) (by rfl) (by rfl) (by decide)

/-! ## C3 — a cancelled invitation is inert -/

/-- C3: once the ledger holds no `pending` row for the email (its only
row having been cancelled by the admin), a reconciliation attempt via
the confirmation callback returns `NoPendingInvitation` with the store
untouched, and the login sweep driven by the acceptance-link markers
POSTs the same reconcile, gets the same answer, and leaves both tables
unchanged — no Membership is created on either path. -/
theorem C3_cancelled_invitation_inert (db : DB) (ls : LocalStorage)
    (email uid wsId : String) (u : AuthUser) (now : Nat)
    (hemail : email ≠ "")
    (hnp : db.invitations.filter (pendingFor email) = [])
    (hu : selectSingle (fun v => v.id == u.id) db.users = some u)
    (hid : u.id ≠ "")
    (hconf : u.email_confirmed = true)
    (hpc1 : ls.pending_confirmation_user_id = some uid) (huid : uid ≠ "")
    (hpc2 : ls.pending_confirmation_email = some email)
    (hpc3 : ls.pending_confirmation_workspace_id = some wsId) (hws : wsId ≠ "") :
    reconcile db email u.id now = (.noPendingInvitation, db) ∧
    loginSweep db ls email (some u) now =
      (.confirmCalled .noPendingInvitation, db, clearIntent ls) := by
  have h1 : reconcile db email u.id now = (.noPendingInvitation, db) := by
    simp [reconcile, hemail, hid, hu, hconf, selectSingle_of_nil hnp]
  refine ⟨h1, ?_⟩
  simp [loginSweep, hpc1, hpc2, hpc3, huid, hws, truthy, jsOrD, h1]

theorem C3_witness :
    reconcile dbCancelled "e@x.com" "u1" 9 = (.noPendingInvitation, dbCancelled) ∧
    loginSweep dbCancelled lsConfirm "e@x.com" (some ⟨"u1", "e@x.com", true⟩) 9 =
      (.confirmCalled .noPendingInvitation, dbCancelled, clearIntent lsConfirm) :=
  C3_cancelled_invitation_inert dbCancelled lsConfirm "e@x.com" "u1" "W1"
    ⟨"u1", "e@x.com", true⟩ 9 (by decide) (by rfl) (by rfl) (by decide) (by rfl)
    (by rfl) (by decide) (by rfl) (by rfl) (by decide)

/-! ## Record-update facts -/

theorem keyFor_mark (w e : String) (s : InvStatus) (a : Option Nat)
    (j : Invitation) :
    keyFor w e { j with status := s, accepted_at := a } = keyFor w e j := rfl

theorem keyFor_upd (w e r v : String) (j : Invitation) :
    keyFor w e { j with role := r, status := InvStatus.pending, invited_by := v } =
      keyFor w e j := rfl

theorem pendingFor_mark (e : String) (a : Option Nat) (j : Invitation) :
    pendingFor e { j with status := InvStatus.accepted, accepted_at := a } = false := by
  simp only [pendingFor]
  exact Bool.and_false _

/-- After the reconciler's mark-accepted update, no row is still
`pending` for the email, provided every pending row for the email
carried the updated natural key. -/
theorem filter_pending_after_accept (l : List Invitation) (w e : String)
    (now : Nat)
    (h : ∀ j ∈ l, pendingFor e j = true → keyFor w e j = true) :
    (l.map (fun i => if keyFor w e i then
        { i with status := InvStatus.accepted, accepted_at := some now }
      else i)).filter (pendingFor e) = [] := by
  induction l with
  | nil => rfl
  | cons a t ih =>
    have iht := ih (fun j hj => h j (List.mem_cons_of_mem a hj))
    by_cases hk : keyFor w e a = true
    · simp [hk, pendingFor_mark, iht]
    · have hk' : keyFor w e a = false := by
        cases hkk : keyFor w e a
        · rfl
        · exact absurd hkk hk
      have hp : pendingFor e a = false := by
        cases hpa : pendingFor e a
        · rfl
        · exact absurd (h a (List.mem_cons_self a t) hpa) (by simp [hk'])
      simp [hk', hp, iht]

/-! ## C1 — idempotency of reconcile on membership -/

/-- Confirmed identity that is already a member of `W1` while the
ledger still holds a `pending` row for it — the state a re-invite of
an existing member leaves behind. -/
def dbMemberPending : DB :=
  { users := [⟨"u1", "e@x.com", true⟩]
    user_roles := []
    members := [⟨"W1", "u1", "member"⟩]
    invitations := [⟨"W1", "e@x.com", "member", .pending, "sa", none⟩] }

/-- C1 counterexample: with the Membership already present and a
`pending` ledger row remaining, `reconcile` does not treat the call as
success — the guarded duplicate insert fails and the route answers the
500 `Failed to add user to workspace` (it does not duplicate either:
the store is untouched). -/
theorem C1_counterexample :
    (reconcile dbMemberPending "e@x.com" "u1" 7).1 = .memberInsertFailed ∧
    (reconcile dbMemberPending "e@x.com" "u1" 7).1.isSuccess = false ∧
    (reconcile dbMemberPending "e@x.com" "u1" 7).2 = dbMemberPending ∧
    reconcile (reconcile dbMemberPending "e@x.com" "u1" 7).2 "e@x.com" "u1" 8 =
      (.memberInsertFailed, dbMemberPending) := by
  decide

/-- C1 (amended): calling `reconcile` twice for a confirmed identity
with one pending invitation leaves exactly one Membership row for
`(workspace_id, user_id)` — the first call creates it and marks the
ledger `accepted`, and the second call finds no pending row and
returns `NoPendingInvitation` with the store untouched.  (When a
Membership already exists while a pending row remains, the call
reports failure rather than success, without duplicating — see the
counterexample.) -/
theorem C1_reconcile_idempotent (db : DB) (email userId : String)
    (now now2 : Nat) (u : AuthUser) (inv : Invitation)
    (hemail : email ≠ "") (huid : userId ≠ "")
    (hu : selectSingle (fun v => v.id == userId) db.users = some u)
    (hconf : u.email_confirmed = true)
    (hpend : db.invitations.filter (pendingFor email) = [inv])
    (hmem : db.members.filter (memberKey inv.workspace_id userId) = []) :
    (reconcile db email userId now).1 = .memberAdded ∧
    ((reconcile db email userId now).2.members.filter
        (memberKey inv.workspace_id userId)).length = 1 ∧
    reconcile (reconcile db email userId now).2 email userId now2 =
      (.noPendingInvitation, (reconcile db email userId now).2) := by
  have hall := List.filter_eq_nil_iff.mp hmem
  have hany : db.members.any (memberKey inv.workspace_id userId) = false := by
    simp only [Bool.eq_false_iff, ne_eq, List.any_eq_true, not_exists, not_and]
    exact fun x hx => by simpa using hall x hx
  have hinvmem : inv ∈ db.invitations.filter (pendingFor email) := by
    rw [hpend]; exact List.mem_cons_self inv []
  have hinvp : pendingFor email inv = true := (List.mem_filter.mp hinvmem).2
  have hrun : reconcile db email userId now =
      (.memberAdded,
        { db with
          members := db.members ++
            [⟨inv.workspace_id, userId,
              if inv.role = "" then "member" else inv.role⟩],
          invitations := db.invitations.map (fun i =>
            if keyFor inv.workspace_id email i then
              { i with status := .accepted, accepted_at := some now }
            else i) }) := by
    simp [reconcile, hemail, huid, hu, hconf, selectSingle_of_one hpend, hany]
  refine ⟨by rw [hrun], ?_, ?_⟩
  · rw [hrun]
    simp [List.filter_append, hmem, memberKey]
  · have hkeyall : ∀ j ∈ db.invitations, pendingFor email j = true →
        keyFor inv.workspace_id email j = true := by
      intro j hj hpj
      have hjmem : j ∈ db.invitations.filter (pendingFor email) :=
        List.mem_filter.mpr ⟨hj, hpj⟩
      rw [hpend] at hjmem
      rcases List.mem_singleton.mp hjmem with rfl
      have he : j.email = email := by
        have h2 := hpj
        simp [pendingFor] at h2
        exact h2.1
      simp [keyFor, he]
    have hpf := filter_pending_after_accept db.invitations inv.workspace_id
      email now hkeyall
    rw [hrun]
    simp [reconcile, hemail, huid, hu, hconf, selectSingle_of_nil hpf]

/-- Confirmed identity, one pending invitation, no memberships yet. -/
def dbFresh : DB :=
  { users := [⟨"u1", "e@x.com", true⟩]
    user_roles := []
    members := []
    invitations := [⟨"W1", "e@x.com", "admin", .pending, "sa", none⟩] }

theorem C1_witness :
    (reconcile dbFresh "e@x.com" "u1" 5).1 = .memberAdded ∧
    ((reconcile dbFresh "e@x.com" "u1" 5).2.members.filter
        (memberKey "W1" "u1")).length = 1 ∧
    reconcile (reconcile dbFresh "e@x.com" "u1" 5).2 "e@x.com" "u1" 6 =
      (.noPendingInvitation, (reconcile dbFresh "e@x.com" "u1" 5).2) :=
  C1_reconcile_idempotent dbFresh "e@x.com" "u1" 5 6 ⟨"u1", "e@x.com", true⟩
    ⟨"W1", "e@x.com", "admin", .pending, "sa", none⟩
    (by decide) (by decide) (by rfl) (by rfl) (by rfl) (by rfl)

/-! ## C2 — who sets `accepted` -/

/-- An empty browser store. -/
def lsEmpty : LocalStorage :=
  { process_pending_invitation := none
    pending_workspace_id := none
    pending_invitation_workspace_id := none
    pending_invite_role := none
    pending_invitation_role := none
    pending_confirmation_user_id := none
    pending_confirmation_workspace_id := none
    pending_confirmation_email := none }

/-- No identity yet; one pending invitation for `e@x.com` in `W1`. -/
def dbPendingOnly : DB :=
  { users := []
    user_roles := []
    members := []
    invitations := [⟨"W1", "e@x.com", "member", .pending, "sa", none⟩] }

/-- C2 counterexample: running the Registration/Acceptance Handler on a
fresh invitee flips the ledger row to `accepted` while the identity it
just created is still unconfirmed — the acceptance handler, not only
the Reconciler/Sweep, performs the `accepted` transition, and it does
so before the email is confirmed. -/
theorem C2_counterexample :
    ((acceptInvitation dbPendingOnly lsEmpty
        (some ⟨"e@x.com", "W1", "member", "WS"⟩)
        "e@x.com" "password1" "password1" "u9" 3).2.1.invitations.map
          Invitation.status = [.accepted]) ∧
    ((acceptInvitation dbPendingOnly lsEmpty
        (some ⟨"e@x.com", "W1", "member", "WS"⟩)
        "e@x.com" "password1" "password1" "u9" 3).2.1.users.map
          AuthUser.email_confirmed = [false]) := by
  decide

/-- C2 (amended): `accepted` is set by the Confirmation Reconciler, the
Session-Login Sweep, and additionally by the Registration/Acceptance
Handler itself: on any successful sign-up the handler immediately
updates every ledger row for `(workspace_id, email)` to `accepted` —
regardless of its previous status and while the identity it just
created is still unconfirmed. -/
theorem C2_accept_handler_marks_accepted (db : DB) (ls : LocalStorage)
    (inv : InvitationQuery) (email pw newId : String) (now : Nat)
    (hnew : db.users.any (fun u => u.email == email) = false) :
    (acceptInvitation db ls (some inv) email pw pw newId now).1 = .registered ∧
    (⟨newId, email, false⟩ : AuthUser) ∈
      (acceptInvitation db ls (some inv) email pw pw newId now).2.1.users ∧
    (∀ i ∈ (acceptInvitation db ls (some inv) email pw pw newId now).2.1.invitations,
      keyFor inv.workspaceId email i = true → i.status = .accepted) := by
  have hrun : acceptInvitation db ls (some inv) email pw pw newId now =
      (.registered,
        { db with
          users := db.users ++ [(⟨newId, email, false⟩ : AuthUser)]
          invitations := db.invitations.map (fun i =>
            if keyFor inv.workspaceId email i then
              { i with status := .accepted, accepted_at := some now }
            else i) },
        { ls with
          pending_confirmation_user_id := some newId
          pending_confirmation_workspace_id := some inv.workspaceId
          pending_confirmation_email := some email }) := by
    simp [acceptInvitation, hnew]
  rw [hrun]
  refine ⟨rfl, by simp, ?_⟩
  intro i hi hk
  simp only [List.mem_map] at hi
  rcases hi with ⟨j, hj, rfl⟩
  by_cases hkj : keyFor inv.workspaceId email j = true
  · simp [hkj]
  · rw [if_neg hkj] at hk ⊢
    exact absurd hk hkj

theorem C2_witness :
    (acceptInvitation dbPendingOnly lsEmpty
        (some ⟨"e@x.com", "W1", "member", "WS"⟩)
        "e@x.com" "password1" "password1" "u9" 3).1 = .registered ∧
    (⟨"u9", "e@x.com", false⟩ : AuthUser) ∈
      (acceptInvitation dbPendingOnly lsEmpty
        (some ⟨"e@x.com", "W1", "member", "WS"⟩)
        "e@x.com" "password1" "password1" "u9" 3).2.1.users ∧
    (∀ i ∈ (acceptInvitation dbPendingOnly lsEmpty
        (some ⟨"e@x.com", "W1", "member", "WS"⟩)
        "e@x.com" "password1" "password1" "u9" 3).2.1.invitations,
      keyFor "W1" "e@x.com" i = true → i.status = .accepted) :=
  C2_accept_handler_marks_accepted dbPendingOnly lsEmpty
    ⟨"e@x.com", "W1", "member", "WS"⟩ "e@x.com" "password1" "u9" 3 (by decide)

/-! ## C10 — the sweep clears carried intent unconditionally -/

/-- C10: whenever the login sweep enters its invitation-processing
branch (any outcome other than an ordinary no-intent login; with a
signed-in user the user-lookup early return cannot fire), it finishes
by removing every carried-intent marker — the pending-invitation and
pending-confirmation localStorage keys — regardless of whether the
reconciliation it attempted succeeded or failed, so a failed
reconciliation is not retried at a later login. -/
theorem C10_sweep_clears_markers (db : DB) (ls : LocalStorage)
    (email : String) (u : AuthUser) (now : Nat)
    (h : (loginSweep db ls email (some u) now).1 ≠ .noIntent) :
    (loginSweep db ls email (some u) now).2.2 = clearIntent ls := by
  have key : ∀ o d2 l2, loginSweep db ls email (some u) now = (o, d2, l2) →
      o ≠ .noIntent → l2 = clearIntent ls := by
    intro o d2 l2 hrun hno
    simp only [loginSweep] at hrun
    repeat' split at hrun
    all_goals cases hrun
    all_goals first
      | rfl
      | exact absurd rfl hno
  exact key _ _ _ rfl h

/-- Carried-intent markers for the still-unconfirmed `new@x.com`. -/
def lsSweep : LocalStorage :=
  { process_pending_invitation := none
    pending_workspace_id := none
    pending_invitation_workspace_id := none
    pending_invite_role := none
    pending_invitation_role := none
    pending_confirmation_user_id := some "u1"
    pending_confirmation_workspace_id := some "W1"
    pending_confirmation_email := some "new@x.com" }

theorem C10_witness :
    (loginSweep dbUnconfirmed lsSweep "new@x.com"
        (some ⟨"u1", "new@x.com", false⟩) 0).2.2 = clearIntent lsSweep :=
  C10_sweep_clears_markers dbUnconfirmed lsSweep "new@x.com"
    ⟨"u1", "new@x.com", false⟩ 0 (by decide)

/-! ## Upsert characterization -/

theorem filter_key_map_upd (l : List Invitation) (w e r v : String) :
    (l.map (fun i => if keyFor w e i then
        { i with role := if r = "" then "member" else r,
                 status := InvStatus.pending, invited_by := v }
      else i)).filter (keyFor w e)
      = (l.filter (keyFor w e)).map (fun i =>
          { i with role := if r = "" then "member" else r,
                   status := InvStatus.pending, invited_by := v }) := by
  induction l with
  | nil => rfl
  | cons a t ih =>
    by_cases hk : keyFor w e a = true
    · simp [hk, keyFor_upd, ih]
    · have hk' : keyFor w e a = false := by
        cases hkk : keyFor w e a
        · rfl
        · exact absurd hkk hk
      simp [hk', keyFor_upd, ih]

/-- After an upsert, the ledger holds exactly one row for the natural
key, carrying the (defaulted) requested role, status `pending`, and the
inviter — provided the ledger respected the at-most-one-row invariant
before. -/
theorem upsert_filter_key (db : DB) (w e r v : String)
    (hlen : (db.invitations.filter (keyFor w e)).length ≤ 1) :
    ((upsertInvitation db w e r v).invitations.filter (keyFor w e)).map
        (fun i => (i.role, i.status, i.invited_by))
      = [((if r = "" then "member" else r), InvStatus.pending, v)] := by
  unfold upsertInvitation
  rcases hm : db.invitations.filter (keyFor w e) with _ | ⟨a, rest⟩
  · rw [selectSingle_of_nil hm]
    simp [hm, List.filter_append, keyFor]
  · have hrest : rest = [] := by
      rw [hm] at hlen
      simp only [List.length_cons] at hlen
      exact List.length_eq_zero.mp (by omega)
    subst hrest
    rw [selectSingle_of_one hm]
    simp only [filter_key_map_upd, hm, List.map_cons, List.map_nil]

theorem upsert_keeps_user_roles (db : DB) (w e r v : String) :
    (upsertInvitation db w e r v).user_roles = db.user_roles := by
  unfold upsertInvitation
  split
  · rfl
  · split
    · rfl
    · rfl

/-- For an authenticated global superadmin the create route always runs
the ledger upsert, whatever the mail outcome. -/
theorem issue_superadmin_snd (db : DB) (s : AuthUser)
    (email wsId r : String) (m : Bool)
    (hemail : email ≠ "") (hws : wsId ≠ "")
    (hsa : selectSingle (fun x => x.user_id == s.id) db.user_roles =
      some ⟨s.id, "superadmin"⟩) :
    (issue db (some s) email wsId r m).2 = upsertInvitation db wsId email r s.id := by
  cases m <;> simp [issue, hemail, hws, hsa]

/-! ## C4 — the missing authorization boundary -/

/-- An entirely empty store: nobody is authenticated, nobody is a
member, the ledger is empty. -/
def dbEmpty : DB :=
  { users := [], user_roles := [], members := [], invitations := [] }

/-- C4: evaluating the create route at the failing input — a caller
with no authenticated session — shows the claim violated by the code:
instead of `Forbidden` with no Ledger mutation, the bypass branch
upserts a pending ledger row attributed to the hard-coded mock
superadmin and reports success. -/
theorem C4_unauthenticated_bypass_mutates_ledger :
    (issue dbEmpty none "new@x.com" "W1" "member" true).1 = .sent ∧
    (issue dbEmpty none "new@x.com" "W1" "member" true).1 ≠ .forbidden ∧
    (issue dbEmpty none "new@x.com" "W1" "member" true).2.invitations =
      [⟨"W1", "new@x.com", "member", .pending, mockSuperadminId, none⟩] := by
  decide

/-- The half of the authorization rule the code does implement: an
authenticated caller who is neither superadmin nor an admin/owner
member of the workspace gets 403 and the store is untouched. -/
theorem issue_forbidden_no_mutation (db : DB) (s : AuthUser)
    (email wsId role : String) (m : Bool)
    (hemail : email ≠ "") (hws : wsId ≠ "")
    (hnotsa : ∀ r, selectSingle (fun x => x.user_id == s.id) db.user_roles =
      some r → r.role ≠ "superadmin")
    (hnotadmin : ∀ mm, selectSingle (memberKey wsId s.id) db.members =
      some mm → mm.role ≠ "admin" ∧ mm.role ≠ "owner") :
    issue db (some s) email wsId role m = (.forbidden, db) := by
  have hsa : (match selectSingle (fun x => x.user_id == s.id) db.user_roles with
      | some r => r.role == "superadmin"
      | none => false) = false := by
    rcases hr : selectSingle (fun x => x.user_id == s.id) db.user_roles with _ | r
    · simp [hr]
    · simp [hr, hnotsa r hr]
  have hmem : (match selectSingle (memberKey wsId s.id) db.members with
      | some mm => mm.role == "admin" || mm.role == "owner"
      | none => false) = false := by
    rcases hr : selectSingle (memberKey wsId s.id) db.members with _ | mm
    · simp [hr]
    · have hmm := hnotadmin mm hr
      simp [hr, hmm.1, hmm.2]
  simp [issue, hemail, hws, hsa, hmem]

/-! ## C5 — idempotent issue by natural key -/

/-- C5: for an authorized caller, issuing twice for the same
`(email, workspace_id)` with differing roles leaves exactly one ledger
row for the pair, carrying the latest role, status `pending` and the
caller as `invited_by` — whatever the two mail outcomes were. -/
theorem C5_issue_idempotent_latest_role (db : DB) (s : AuthUser)
    (email wsId r1 r2 : String) (m1 m2 : Bool)
    (hemail : email ≠ "") (hws : wsId ≠ "")
    (hsa : selectSingle (fun x => x.user_id == s.id) db.user_roles =
      some ⟨s.id, "superadmin"⟩)
    (hr2 : r2 ≠ "")
    (hkey : (db.invitations.filter (keyFor wsId email)).length ≤ 1) :
    (((issue (issue db (some s) email wsId r1 m1).2 (some s) email wsId r2 m2).2.invitations.filter
        (keyFor wsId email)).map (fun i => (i.role, i.status, i.invited_by))
      = [(r2, InvStatus.pending, s.id)]) ∧
    ((issue (issue db (some s) email wsId r1 m1).2 (some s) email wsId r2 m2).2.invitations.filter
        (keyFor wsId email)).length = 1 := by
  have h1 := issue_superadmin_snd db s email wsId r1 m1 hemail hws hsa
  have hsa1 : selectSingle (fun x => x.user_id == s.id)
      (issue db (some s) email wsId r1 m1).2.user_roles =
        some ⟨s.id, "superadmin"⟩ := by
    rw [h1, upsert_keeps_user_roles]
    exact hsa
  have h2 := issue_superadmin_snd (issue db (some s) email wsId r1 m1).2 s
    email wsId r2 m2 hemail hws hsa1
  have hf1 := upsert_filter_key db wsId email r1 s.id hkey
  have hlen1 : ((issue db (some s) email wsId r1 m1).2.invitations.filter
      (keyFor wsId email)).length ≤ 1 := by
    rw [h1]
    have hlenmap := congrArg List.length hf1
    rw [List.length_map] at hlenmap
    simp [hlenmap]
  have hf2 := upsert_filter_key (issue db (some s) email wsId r1 m1).2 wsId
    email r2 s.id hlen1
  rw [h2] at *
  rw [if_neg hr2] at hf2
  refine ⟨hf2, ?_⟩
  have hlenmap := congrArg List.length hf2
  rw [List.length_map] at hlenmap
  simpa using hlenmap

/-- A superadmin caller. -/
def saUser : AuthUser := ⟨"sa1", "sa@x.com", true⟩

/-- Store where `sa1` is the global superadmin and the ledger is
empty. -/
def dbSa : DB :=
  { users := [saUser]
    user_roles := [⟨"sa1", "superadmin"⟩]
    members := []
    invitations := [] }

theorem C5_witness :
    (((issue (issue dbSa (some saUser) "new@x.com" "W1" "member" true).2
        (some saUser) "new@x.com" "W1" "admin" true).2.invitations.filter
          (keyFor "W1" "new@x.com")).map (fun i => (i.role, i.status, i.invited_by))
        = [("admin", InvStatus.pending, "sa1")]) ∧
    ((issue (issue dbSa (some saUser) "new@x.com" "W1" "member" true).2
        (some saUser) "new@x.com" "W1" "admin" true).2.invitations.filter
          (keyFor "W1" "new@x.com")).length = 1 :=
  C5_issue_idempotent_latest_role dbSa saUser "new@x.com" "W1" "member" "admin"
    true true (by decide) (by decide) (by rfl) (by decide) (by decide)

/-! ## C7 — mail failure after a successful upsert -/

/-- C7 counterexample: with the ledger write succeeded and the mail
send failed, the create route reports failure (`Failed to send
invitation email`, 500) to the inviter — not success as the claim
states — while the pending ledger row indeed remains persisted. -/
theorem C7_counterexample :
    ((issue dbSa (some saUser) "new@x.com" "W1" "member" false).1.isSuccess
      = false) ∧
    ((issue dbSa (some saUser) "new@x.com" "W1" "member" false).2.invitations =
      [⟨"W1", "new@x.com", "member", .pending, "sa1", none⟩]) := by
  decide

/-- C7 (amended): when the mail send fails after the ledger upsert, the
operation reports failure (`MailDeliveryError`) to the inviter, but the
ledger write is not rolled back — the invitation row remains persisted
with status `pending`. -/
theorem C7_mail_failure_keeps_row (db : DB) (s : AuthUser)
    (email wsId role : String)
    (hemail : email ≠ "") (hws : wsId ≠ "")
    (hsa : selectSingle (fun x => x.user_id == s.id) db.user_roles =
      some ⟨s.id, "superadmin"⟩)
    (hkey : (db.invitations.filter (keyFor wsId email)).length ≤ 1) :
    (issue db (some s) email wsId role false).1 = .mailFailed ∧
    (issue db (some s) email wsId role false).1.isSuccess = false ∧
    ((issue db (some s) email wsId role false).2.invitations.filter
        (keyFor wsId email)).map (fun i => i.status) = [InvStatus.pending] := by
  have hfst : (issue db (some s) email wsId role false).1 = .mailFailed := by
    simp [issue, hemail, hws, hsa]
  refine ⟨hfst, by rw [hfst]; rfl, ?_⟩
  have hsnd := issue_superadmin_snd db s email wsId role false hemail hws hsa
  have hf := upsert_filter_key db wsId email role s.id hkey
  rw [hsnd]
  rcases hfl : (upsertInvitation db wsId email role s.id).invitations.filter
      (keyFor wsId email) with _ | ⟨j, rest⟩
  · rw [hfl] at hf
    simp at hf
  · rw [hfl] at hf
    simp only [List.map_cons] at hf
    have hj := List.cons.injEq _ _ _ _ ▸ hf
    rw [List.cons.injEq] at hf
    obtain ⟨hhead, htail⟩ := hf
    have hrest : rest = [] := by
      rcases rest with _ | ⟨x, xs⟩
      · rfl
      · simp at htail
    subst hrest
    simp only [List.map_cons, List.map_nil, List.cons.injEq, and_true]
    have := congrArg (fun t => t.2.1) hhead
    simpa using this

theorem C7_witness :
    (issue dbSa (some saUser) "new@x.com" "W1" "member" false).1 = .mailFailed ∧
    (issue dbSa (some saUser) "new@x.com" "W1" "member" false).1.isSuccess = false ∧
    ((issue dbSa (some saUser) "new@x.com" "W1" "member" false).2.invitations.filter
        (keyFor "W1" "new@x.com")).map (fun i => i.status) = [InvStatus.pending] :=
  C7_mail_failure_keeps_row dbSa saUser "new@x.com" "W1" "member"
    (by decide) (by decide) (by rfl) (by decide)

/-! ## C8 — the acceptance deep link -/

/-- C8: the acceptance deep link carries exactly the four query
parameters named `email`, `workspace_id`, `invite_role` and
`workspace_name`, bound respectively to the (URI-component-encoded)
invitee email, the raw workspace id, the invited role, and the
(URI-component-encoded) workspace name; and the link the route builds
is precisely the acceptance path followed by that query rendered in
order. -/
theorem C8_deep_link_four_params (base email wsId role wsName : String)
    (hrole : role ≠ "") :
    (targetLinkQuery email wsId role wsName).map Prod.fst =
      ["email", "workspace_id", "invite_role", "workspace_name"] ∧
    targetLinkQuery email wsId role wsName =
      [("email", encodeURIComponent email), ("workspace_id", wsId),
       ("invite_role", role), ("workspace_name", encodeURIComponent wsName)] ∧
    targetLink base email wsId role wsName =
      base ++ "/auth/accept-invitation?" ++
        renderQuery (targetLinkQuery email wsId role wsName) := by
  refine ⟨by simp [targetLinkQuery], by simp [targetLinkQuery, hrole], ?_⟩
  have hq : renderQuery (targetLinkQuery email wsId role wsName) =
      "email=" ++ encodeURIComponent email ++ "&" ++ ("workspace_id=" ++ wsId) ++
        "&" ++ ("invite_role=" ++ role) ++ "&" ++
        ("workspace_name=" ++ encodeURIComponent wsName) := by
    simp only [targetLinkQuery, renderQuery, if_neg hrole, List.map]
    rfl
  rw [hq]
  apply String.ext
  simp [targetLink, hrole, String.data_append, List.append_assoc]

theorem C8_witness :
    (targetLinkQuery "a b@x.com" "W1" "admin" "My WS").map Prod.fst =
      ["email", "workspace_id", "invite_role", "workspace_name"] ∧
    targetLinkQuery "a b@x.com" "W1" "admin" "My WS" =
      [("email", encodeURIComponent "a b@x.com"), ("workspace_id", "W1"),
       ("invite_role", "admin"), ("workspace_name", encodeURIComponent "My WS")] ∧
    targetLink "http://h" "a b@x.com" "W1" "admin" "My WS" =
      "http://h" ++ "/auth/accept-invitation?" ++
        renderQuery (targetLinkQuery "a b@x.com" "W1" "admin" "My WS") :=
  C8_deep_link_four_params "http://h" "a b@x.com" "W1" "admin" "My WS" (by decide)
